import Mathlib

/-
Shallow embedding of the stream-iterator component of gfoust/stream-iterator.

The repository contains two near-identical header variants of the same
component:
  * src/input/input.hpp   — class `input::StreamIterator<T>`
  * src/unnamed/part_000  — class `cgf::IstreamIterator<T>`
Both hold a `std::variant<Eof, Count, Sentinel, InputState>` and share the
same `Equivalent` visitor, `softCommit`, and hard-committing read
(`commit` in input.hpp, `hardCommit` in part_000).  They differ only in
`operator++`: input.hpp calls `softCommit`, part_000 calls `hardCommit`.
We therefore model one shared cursor type and two increment operations:
`StreamIterator.inc` (input.hpp) and `IstreamIterator.inc` (part_000).

`std::istream` is modelled by `Istream`: a list of remaining tokens
(`some v` = a well-formed token extracting to `v`, `none` = a malformed
token on which formatted extraction fails without reaching end of input)
plus the two status flags relevant here, `failbit` (covers failbit/badbit,
i.e. C++ `fail()`) and `eofbit` (C++ `eof()`).  The C++ `std::istream* in`
member is modelled as a stream identity `inId : Nat` (the pointer value,
used only for the reader-vs-reader identity comparison `lhs.in == rhs.in`)
together with the current state `inStrm` of the pointee, threaded through
each operation in state-passing style.

Exceptions are modelled with `Except StreamError`:
  * `StreamError.failure`          — `std::istream::failure("input failure")`
    thrown by the hard-committing read; the spec calls it
    `InputExhaustedError`.
  * `StreamError.badVariantAccess` — `std::bad_variant_access` thrown by
    `std::get<InputState>` when `operator*`/`operator++` is invoked on a
    stopping-condition variant; the spec calls it `InvalidStateError`.
-/

namespace cgf

/-- Error kinds the component can raise: `failure` models
`std::istream::failure` (the spec's `InputExhaustedError`),
`badVariantAccess` models `std::bad_variant_access` (the spec's
`InvalidStateError`). -/
inductive StreamError where
  | failure : StreamError
  | badVariantAccess : StreamError
deriving DecidableEq, Repr

/-- Model of a `std::istream`: remaining tokens plus status flags. -/
structure Istream (T : Type) where
  toks : List (Option T)
  failbit : Bool
  eofbit : Bool
deriving DecidableEq, Repr

/-- One formatted extraction `in >> value`.  If the stream is already in a
failed state the extraction does nothing and yields no value.  At end of
input it sets both eofbit and failbit.  On a malformed token it sets
failbit only.  On success it consumes the token and yields its value. -/
def Istream.read {T : Type} (s : Istream T) : Istream T × Option T :=
  if s.failbit then (s, none)
  else
    match s.toks with
    | [] => ({ s with failbit := true, eofbit := true }, none)
    | none :: rest => ({ s with toks := rest, failbit := true }, none)
    | some v :: rest => ({ s with toks := rest }, some v)

/-- Stopping condition `Eof` (identical in both headers). -/
structure Eof where
deriving DecidableEq, Repr

/-- `Eof::operator==`: `return true;`. -/
def Eof.beq (_ _ : Eof) : Bool := true

/-- `Eof::operator!=`: `return true;` (not the negation of `==`). -/
def Eof.bne (_ _ : Eof) : Bool := true

/-- Stopping condition `Count` wrapping a `size_t`. -/
structure Count where
  value : Nat
deriving DecidableEq, Repr

/-- `Count::operator==`: compares the wrapped values. -/
def Count.beq (a b : Count) : Bool := decide (a.value = b.value)

/-- `Count::operator!=`: compares the wrapped values. -/
def Count.bne (a b : Count) : Bool := decide (a.value ≠ b.value)

/-- Stopping condition `Sentinel` wrapping a value of type `T`. -/
structure Sentinel (T : Type) where
  value : T
deriving DecidableEq, Repr

/-- `Sentinel::operator==`: compares the wrapped values. -/
def Sentinel.beq {T : Type} [DecidableEq T] (a b : Sentinel T) : Bool :=
  decide (a.value = b.value)

/-- `Sentinel::operator!=`: compares the wrapped values. -/
def Sentinel.bne {T : Type} [DecidableEq T] (a b : Sentinel T) : Bool :=
  decide (a.value ≠ b.value)

/-- `InputState`: state of an iterator used for input.  `inId` models the
pointer value of `std::istream* in`, `inStrm` the current state of the
pointee stream; `count`, `valid` (mutable), `value` (mutable) are as in
the source. -/
structure InputState (T : Type) where
  inId : Nat
  inStrm : Istream T
  count : Nat
  valid : Bool
  value : T
deriving DecidableEq, Repr

/-- `softCommit`: if no value is cached, extract one from the stream and
mark it valid regardless of success.  On a failed extraction the cached
value is value-initialized (C++11 behaviour of formatted extraction). -/
def softCommit {T : Type} [Inhabited T] (st : InputState T) : InputState T :=
  if st.valid then st
  else
    { st with
      inStrm := st.inStrm.read.1
      value := st.inStrm.read.2.getD default
      valid := true }

/-- `hardCommit` (named `commit` in input.hpp): `softCommit`, then throw
`std::istream::failure("input failure")` if the stream is in a failed
state, else return the cached value. -/
def hardCommit {T : Type} [Inhabited T] (st : InputState T) :
    Except StreamError (T × InputState T) :=
  let st2 := softCommit st
  if st2.inStrm.failbit then Except.error StreamError.failure
  else Except.ok (st2.value, st2)

/-- The cursor: `std::variant<Eof, Count, Sentinel, InputState>`. -/
inductive StreamIterator (T : Type) where
  | eofStop : Eof → StreamIterator T
  | countStop : Count → StreamIterator T
  | sentinelStop : Sentinel T → StreamIterator T
  | input : InputState T → StreamIterator T
deriving DecidableEq, Repr

/-- The `Equivalent` visitor, dispatching on the pair of variants exactly
as the C++ overload set does (identical in both headers).  Returns the
boolean together with the post-states of both operands (the visitor
mutates the mutable `valid`/`value` fields and the bound stream through
`softCommit`/`hardCommit`). -/
def Equivalent {T : Type} [Inhabited T] [DecidableEq T] :
    StreamIterator T → StreamIterator T →
    Except StreamError (Bool × StreamIterator T × StreamIterator T)
  | .input l, .input r =>
      Except.ok (decide (l.inId = r.inId), .input l, .input r)
  | .input l, .sentinelStop r =>
      (hardCommit l).map fun p => (decide (p.1 = r.value), .input p.2, .sentinelStop r)
  | .sentinelStop l, .input r =>
      (hardCommit r).map fun p => (decide (l.value = p.1), .sentinelStop l, .input p.2)
  | .input l, .countStop r =>
      Except.ok (decide (l.count = r.value), .input l, .countStop r)
  | .countStop l, .input r =>
      Except.ok (decide (l.value = r.count), .countStop l, .input r)
  | .input l, .eofStop e =>
      let l2 := softCommit l
      Except.ok (l2.inStrm.eofbit, .input l2, .eofStop e)
  | .eofStop e, .input r =>
      let r2 := softCommit r
      Except.ok (r2.inStrm.eofbit, .eofStop e, .input r2)
  | .eofStop a, .eofStop b => Except.ok (Eof.beq a b, .eofStop a, .eofStop b)
  | .countStop a, .countStop b => Except.ok (Count.beq a b, .countStop a, .countStop b)
  | .sentinelStop a, .sentinelStop b =>
      Except.ok (Sentinel.beq a b, .sentinelStop a, .sentinelStop b)
  | x, y => Except.ok (false, x, y)

/-- `operator==`: the boolean returned by the visitor dispatch. -/
def eqBool {T : Type} [Inhabited T] [DecidableEq T]
    (x y : StreamIterator T) : Except StreamError Bool :=
  (Equivalent x y).map fun r => r.1

/-- `operator!=`: the negation of the visitor dispatch's boolean. -/
def neBool {T : Type} [Inhabited T] [DecidableEq T]
    (x y : StreamIterator T) : Except StreamError Bool :=
  (Equivalent x y).map fun r => !r.1

/-- `operator*`: `hardCommit(std::get<InputState>(_impl))`; on a
stopping-condition variant, `std::get` throws `std::bad_variant_access`. -/
def StreamIterator.deref {T : Type} [Inhabited T] :
    StreamIterator T → Except StreamError (T × StreamIterator T)
  | .input st => (hardCommit st).map fun p => (p.1, .input p.2)
  | _ => Except.error StreamError.badVariantAccess

/-- `StreamIterator::operator++` (src/input/input.hpp): `softCommit`,
increment `count`, clear `valid`; `std::get` throws on a
stopping-condition variant. -/
def StreamIterator.inc {T : Type} [Inhabited T] :
    StreamIterator T → Except StreamError (StreamIterator T)
  | .input st =>
      let st2 := softCommit st
      Except.ok (.input { st2 with count := st2.count + 1, valid := false })
  | _ => Except.error StreamError.badVariantAccess

/-- `IstreamIterator::operator++` (src/unnamed/part_000): `hardCommit`,
increment `count`, clear `valid`; `std::get` throws on a
stopping-condition variant. -/
def IstreamIterator.inc {T : Type} [Inhabited T] :
    StreamIterator T → Except StreamError (StreamIterator T)
  | .input st =>
      (hardCommit st).map fun p =>
        .input { p.2 with count := p.2.count + 1, valid := false }
  | _ => Except.error StreamError.badVariantAccess

/-- Iterated `IstreamIterator::operator++`, n times. -/
def IstreamIterator.advanceN {T : Type} [Inhabited T] :
    Nat → StreamIterator T → Except StreamError (StreamIterator T)
  | 0, x => Except.ok x
  | n + 1, x => (IstreamIterator.inc x).bind (IstreamIterator.advanceN n)

/-- `scan` / `IstreamIterator(std::istream&)`: fresh reader bound to a
source, `count` 0, no pending value, default-constructed cache. -/
def scan {T : Type} [Inhabited T] (idn : Nat) (s : Istream T) : StreamIterator T :=
  .input { inId := idn, inStrm := s, count := 0, valid := false, value := default }

/-- Factory `untilCount`. -/
def untilCount {T : Type} (n : Nat) : StreamIterator T := .countStop ⟨n⟩

/-- Factory `untilSentinel`. -/
def untilSentinel {T : Type} (v : T) : StreamIterator T := .sentinelStop ⟨v⟩

/-- Factory `untilEof`. -/
def untilEof (T : Type) : StreamIterator T := .eofStop ⟨⟩

/-- The produced-count carried by a cursor, when it is a reader. -/
def StreamIterator.countOf {T : Type} : StreamIterator T → Option Nat
  | .input st => some st.count
  | _ => none

/-
Helper lemmas shared by the claim theorems.
-/

theorem softCommit_count {T : Type} [Inhabited T] (st : InputState T) :
    (softCommit st).count = st.count := by
  unfold softCommit; split <;> rfl

theorem softCommit_inId {T : Type} [Inhabited T] (st : InputState T) :
    (softCommit st).inId = st.inId := by
  unfold softCommit; split <;> rfl

theorem softCommit_valid {T : Type} [Inhabited T] (st : InputState T) :
    (softCommit st).valid = true := by
  unfold softCommit; split
  · assumption
  · rfl

theorem softCommit_of_valid {T : Type} [Inhabited T] (st : InputState T)
    (h : st.valid = true) : softCommit st = st := by
  unfold softCommit; simp [h]

theorem softCommit_idem {T : Type} [Inhabited T] (st : InputState T) :
    softCommit (softCommit st) = softCommit st :=
  softCommit_of_valid _ (softCommit_valid st)

theorem hardCommit_eq {T : Type} [Inhabited T] (st : InputState T) :
    hardCommit st =
      if (softCommit st).inStrm.failbit then Except.error StreamError.failure
      else Except.ok ((softCommit st).value, softCommit st) := rfl

/-- C1: the claim states that `operator++` always materializes the pending
value through the tolerant path and never raises the input-exhausted
error.  This is false for `IstreamIterator::operator++`
(src/unnamed/part_000), which calls `hardCommit`: incrementing a fresh
reader bound to an already-exhausted source raises
`std::istream::failure` ("input failure"). -/
theorem c1_counterexample :
    IstreamIterator.inc (scan 0 ({ toks := [], failbit := false, eofbit := false } : Istream Nat)) =
      Except.error StreamError.failure := rfl

theorem inc_soft_eq {T : Type} [Inhabited T] (st : InputState T) :
    StreamIterator.inc (StreamIterator.input st) =
      Except.ok (.input { softCommit st with count := st.count + 1, valid := false }) := by
  show Except.ok _ = _
  rw [softCommit_count]

theorem inc_hard_eq {T : Type} [Inhabited T] (st : InputState T) :
    IstreamIterator.inc (StreamIterator.input st) =
      (if (softCommit st).inStrm.failbit then Except.error StreamError.failure
       else Except.ok (.input { softCommit st with count := st.count + 1, valid := false })) := by
  show (hardCommit st).map _ = _
  rw [hardCommit_eq]
  split
  · rfl
  · simp [Except.map, softCommit_count]

/-- C1 (amended): `StreamIterator::operator++` (src/input/input.hpp) uses
the tolerant `softCommit` and never raises the input-exhausted error on a
reader, while `IstreamIterator::operator++` (src/unnamed/part_000) uses
`hardCommit` and raises it exactly when the source cannot supply a value
for the current position. -/
theorem c1_amended {T : Type} [Inhabited T] (st : InputState T) :
    StreamIterator.inc (StreamIterator.input st) =
      Except.ok (.input { softCommit st with count := st.count + 1, valid := false }) ∧
    IstreamIterator.inc (StreamIterator.input st) =
      (if (softCommit st).inStrm.failbit then Except.error StreamError.failure
       else Except.ok (.input { softCommit st with count := st.count + 1, valid := false })) :=
  ⟨inc_soft_eq st, inc_hard_eq st⟩

/-- C2: comparing a reader against `Eof` (in either order) performs the
tolerant `softCommit` (which reads only when no value is already pending),
returns true exactly when the source's eofbit is then set, and never
raises an error. -/
theorem c2_eof_compare {T : Type} [Inhabited T] [DecidableEq T] (st : InputState T) :
    (Equivalent (StreamIterator.input st) (untilEof T)).isOk = true ∧
    (Equivalent (untilEof T) (StreamIterator.input st)).isOk = true ∧
    eqBool (StreamIterator.input st) (untilEof T) =
      Except.ok (softCommit st).inStrm.eofbit ∧
    eqBool (untilEof T) (StreamIterator.input st) =
      Except.ok (softCommit st).inStrm.eofbit ∧
    (st.valid = true → softCommit st = st) :=
  ⟨rfl, rfl, rfl, rfl, softCommit_of_valid st⟩

/-- C2 witness: on a reader with a pending value (`valid = true`), the
eof-comparison does not touch the source at all. -/
theorem c2_eof_compare_witness :
    eqBool (StreamIterator.input
        { inId := 0, inStrm := { toks := [some 4], failbit := false, eofbit := false },
          count := 1, valid := true, value := (9 : Nat) }) (untilEof Nat) =
      Except.ok false ∧
    softCommit
        { inId := 0, inStrm := { toks := [some 4], failbit := false, eofbit := false },
          count := 1, valid := true, value := (9 : Nat) } =
      { inId := 0, inStrm := { toks := [some 4], failbit := false, eofbit := false },
        count := 1, valid := true, value := (9 : Nat) } := by
  have h := c2_eof_compare (T := Nat)
      { inId := 0, inStrm := { toks := [some 4], failbit := false, eofbit := false },
        count := 1, valid := true, value := (9 : Nat) }
  exact ⟨h.2.2.1, h.2.2.2.2 rfl⟩

theorem hardCommit_ok {T : Type} [Inhabited T] {st st' : InputState T} {v : T}
    (h : hardCommit st = Except.ok (v, st')) :
    st' = softCommit st ∧ v = (softCommit st).value := by
  rw [hardCommit_eq] at h
  split at h
  · exact Except.noConfusion h
  · simp only [Except.ok.injEq, Prod.mk.injEq] at h
    exact ⟨h.2.symm, h.1.symm⟩

theorem hardCommit_ok_failbit {T : Type} [Inhabited T] {st : InputState T}
    {p : T × InputState T} (h : hardCommit st = Except.ok p) :
    (softCommit st).inStrm.failbit = false := by
  rw [hardCommit_eq] at h
  split at h
  · exact Except.noConfusion h
  · simp_all

/-- C3: the input-exhausted error (`std::istream::failure`) is raised by
`operator*` on a reader exactly when the source is in a failed state after
the extraction attempt, and likewise by the sentinel-vs-reader branch of
the `Equivalent` comparison, in either order. -/
theorem c3_input_exhausted {T : Type} [Inhabited T] [DecidableEq T]
    (st : InputState T) (v : T) :
    (StreamIterator.deref (StreamIterator.input st) = Except.error StreamError.failure ↔
      (softCommit st).inStrm.failbit = true) ∧
    (Equivalent (StreamIterator.input st) (untilSentinel v) = Except.error StreamError.failure ↔
      (softCommit st).inStrm.failbit = true) ∧
    (Equivalent (untilSentinel v) (StreamIterator.input st) = Except.error StreamError.failure ↔
      (softCommit st).inStrm.failbit = true) := by
  refine ⟨?_, ?_, ?_⟩ <;>
    · simp only [StreamIterator.deref, Equivalent, untilSentinel, hardCommit_eq]
      by_cases h : (softCommit st).inStrm.failbit = true <;> simp [h, Except.map]

/-- C3 witness: dereferencing a fresh reader bound to an exhausted source
raises the input-exhausted error. -/
theorem c3_input_exhausted_witness :
    StreamIterator.deref (StreamIterator.input
        { inId := 0, inStrm := { toks := [], failbit := false, eofbit := false },
          count := 0, valid := false, value := (0 : Nat) }) =
      Except.error StreamError.failure :=
  (c3_input_exhausted
      { inId := 0, inStrm := { toks := [], failbit := false, eofbit := false },
        count := 0, valid := false, value := (0 : Nat) } 0).1.mpr rfl

theorem advanceN_ok {T : Type} [Inhabited T] (n : Nat) :
    ∀ (st : InputState T) (y : StreamIterator T),
      IstreamIterator.advanceN n (StreamIterator.input st) = Except.ok y →
      ∃ st' : InputState T, y = StreamIterator.input st' ∧ st'.count = st.count + n := by
  induction n with
  | zero =>
    intro st y h
    simp [IstreamIterator.advanceN] at h
    exact ⟨st, h.symm, by omega⟩
  | succ n ih =>
    intro st y h
    rw [IstreamIterator.advanceN] at h
    by_cases hfb : (softCommit st).inStrm.failbit = true
    · simp [IstreamIterator.inc, hardCommit_eq, hfb, Except.map, Except.bind] at h
    · have hinc : IstreamIterator.inc (StreamIterator.input st) =
          Except.ok (StreamIterator.input
            { softCommit st with count := (softCommit st).count + 1, valid := false }) := by
        simp [IstreamIterator.inc, hardCommit_eq, hfb, Except.map]
      rw [hinc] at h
      simp only [Except.bind] at h
      obtain ⟨st', hy, hc⟩ := ih _ y h
      refine ⟨st', hy, ?_⟩
      simp [softCommit_count] at hc
      omega

/-- C4: a reader advanced exactly n times from a fresh binding has
produced-count n, so it equals `untilCount n` and does not equal
`untilCount (n+1)`. -/
theorem c4_count_after_advances {T : Type} [Inhabited T] [DecidableEq T]
    (n idn : Nat) (s : Istream T) (x : StreamIterator T)
    (h : IstreamIterator.advanceN n (scan idn s) = Except.ok x) :
    eqBool x (untilCount n) = Except.ok true ∧
    eqBool x (untilCount (n + 1)) = Except.ok false := by
  obtain ⟨st', hy, hc⟩ := advanceN_ok n _ x h
  subst hy
  simp [scan] at hc
  constructor
  · simp [eqBool, Equivalent, untilCount, Except.map, hc]
  · simp [eqBool, Equivalent, untilCount, Except.map, hc]

/-- C4 witness: two advances over the source `[5, 7]` give a reader that
equals `untilCount 2` and not `untilCount 3`. -/
theorem c4_count_after_advances_witness :
    eqBool (StreamIterator.input
        { inId := 0, inStrm := { toks := [], failbit := false, eofbit := false },
          count := 2, valid := false, value := (7 : Nat) }) (untilCount 2) =
      Except.ok true ∧
    eqBool (StreamIterator.input
        { inId := 0, inStrm := { toks := [], failbit := false, eofbit := false },
          count := 2, valid := false, value := (7 : Nat) }) (untilCount 3) =
      Except.ok false :=
  c4_count_after_advances 2 0
    { toks := [some 5, some 7], failbit := false, eofbit := false } _ rfl

/-- C5: the boolean returned by `operator==` (including whether it throws,
and which error) is the same in both argument orders, for every pair of
cursor variants. -/
theorem c5_equals_symm {T : Type} [Inhabited T] [DecidableEq T]
    (x y : StreamIterator T) : eqBool x y = eqBool y x := by
  cases x with
  | input l =>
    cases y with
    | input r => simp [eqBool, Equivalent, Except.map, eq_comm]
    | sentinelStop r =>
        cases h : hardCommit l <;> simp [eqBool, Equivalent, Except.map, h, eq_comm]
    | countStop r => simp [eqBool, Equivalent, Except.map, eq_comm]
    | eofStop e => simp [eqBool, Equivalent, Except.map]
  | sentinelStop l =>
    cases y with
    | input r =>
        cases h : hardCommit r <;> simp [eqBool, Equivalent, Except.map, h, eq_comm]
    | sentinelStop r => simp [eqBool, Equivalent, Except.map, Sentinel.beq, eq_comm]
    | countStop r => simp [eqBool, Equivalent, Except.map]
    | eofStop e => simp [eqBool, Equivalent, Except.map]
  | countStop l =>
    cases y with
    | input r => simp [eqBool, Equivalent, Except.map, eq_comm]
    | sentinelStop r => simp [eqBool, Equivalent, Except.map]
    | countStop r => simp [eqBool, Equivalent, Except.map, Count.beq, eq_comm]
    | eofStop e => simp [eqBool, Equivalent, Except.map]
  | eofStop l =>
    cases y with
    | input r => simp [eqBool, Equivalent, Except.map]
    | sentinelStop r => simp [eqBool, Equivalent, Except.map]
    | countStop r => simp [eqBool, Equivalent, Except.map]
    | eofStop e => simp [eqBool, Equivalent, Except.map, Eof.beq]

theorem equivalent_preserves_counts {T : Type} [Inhabited T] [DecidableEq T] :
    ∀ (x y x' y' : StreamIterator T) (b : Bool),
      Equivalent x y = Except.ok (b, x', y') →
      x'.countOf = x.countOf ∧ y'.countOf = y.countOf := by
  intro x y x' y' b h
  cases x with
  | input l =>
    cases y with
    | input r =>
      simp only [Equivalent, Except.ok.injEq, Prod.mk.injEq] at h
      obtain ⟨-, hx, hy⟩ := h
      subst hx; subst hy; exact ⟨rfl, rfl⟩
    | sentinelStop r =>
      cases hh : hardCommit l with
      | error e => rw [Equivalent, hh] at h; simp [Except.map] at h
      | ok p =>
        rw [Equivalent, hh] at h
        simp only [Except.map, Except.ok.injEq, Prod.mk.injEq] at h
        obtain ⟨-, hx, hy⟩ := h
        subst hx; subst hy
        obtain ⟨hb, -⟩ := hardCommit_ok (show hardCommit l = Except.ok (p.1, p.2) from hh)
        refine ⟨?_, rfl⟩
        show some p.2.count = some l.count
        rw [hb, softCommit_count]
    | countStop r =>
      simp only [Equivalent, Except.ok.injEq, Prod.mk.injEq] at h
      obtain ⟨-, hx, hy⟩ := h
      subst hx; subst hy; exact ⟨rfl, rfl⟩
    | eofStop e =>
      simp only [Equivalent, Except.ok.injEq, Prod.mk.injEq] at h
      obtain ⟨-, hx, hy⟩ := h
      subst hx; subst hy
      refine ⟨?_, rfl⟩
      show some (softCommit l).count = some l.count
      rw [softCommit_count]
  | sentinelStop l =>
    cases y with
    | input r =>
      cases hh : hardCommit r with
      | error e => rw [Equivalent, hh] at h; simp [Except.map] at h
      | ok p =>
        rw [Equivalent, hh] at h
        simp only [Except.map, Except.ok.injEq, Prod.mk.injEq] at h
        obtain ⟨-, hx, hy⟩ := h
        subst hx; subst hy
        obtain ⟨hb, -⟩ := hardCommit_ok (show hardCommit r = Except.ok (p.1, p.2) from hh)
        refine ⟨rfl, ?_⟩
        show some p.2.count = some r.count
        rw [hb, softCommit_count]
    | sentinelStop r =>
      simp only [Equivalent, Except.ok.injEq, Prod.mk.injEq] at h
      obtain ⟨-, hx, hy⟩ := h
      subst hx; subst hy; exact ⟨rfl, rfl⟩
    | countStop r =>
      simp only [Equivalent, Except.ok.injEq, Prod.mk.injEq] at h
      obtain ⟨-, hx, hy⟩ := h
      subst hx; subst hy; exact ⟨rfl, rfl⟩
    | eofStop e =>
      simp only [Equivalent, Except.ok.injEq, Prod.mk.injEq] at h
      obtain ⟨-, hx, hy⟩ := h
      subst hx; subst hy; exact ⟨rfl, rfl⟩
  | countStop l =>
    cases y with
    | input r =>
      simp only [Equivalent, Except.ok.injEq, Prod.mk.injEq] at h
      obtain ⟨-, hx, hy⟩ := h
      subst hx; subst hy; exact ⟨rfl, rfl⟩
    | sentinelStop r =>
      simp only [Equivalent, Except.ok.injEq, Prod.mk.injEq] at h
      obtain ⟨-, hx, hy⟩ := h
      subst hx; subst hy; exact ⟨rfl, rfl⟩
    | countStop r =>
      simp only [Equivalent, Except.ok.injEq, Prod.mk.injEq] at h
      obtain ⟨-, hx, hy⟩ := h
      subst hx; subst hy; exact ⟨rfl, rfl⟩
    | eofStop e =>
      simp only [Equivalent, Except.ok.injEq, Prod.mk.injEq] at h
      obtain ⟨-, hx, hy⟩ := h
      subst hx; subst hy; exact ⟨rfl, rfl⟩
  | eofStop l =>
    cases y with
    | input r =>
      simp only [Equivalent, Except.ok.injEq, Prod.mk.injEq] at h
      obtain ⟨-, hx, hy⟩ := h
      subst hx; subst hy
      refine ⟨rfl, ?_⟩
      show some (softCommit r).count = some r.count
      rw [softCommit_count]
    | sentinelStop r =>
      simp only [Equivalent, Except.ok.injEq, Prod.mk.injEq] at h
      obtain ⟨-, hx, hy⟩ := h
      subst hx; subst hy; exact ⟨rfl, rfl⟩
    | countStop r =>
      simp only [Equivalent, Except.ok.injEq, Prod.mk.injEq] at h
      obtain ⟨-, hx, hy⟩ := h
      subst hx; subst hy; exact ⟨rfl, rfl⟩
    | eofStop e =>
      simp only [Equivalent, Except.ok.injEq, Prod.mk.injEq] at h
      obtain ⟨-, hx, hy⟩ := h
      subst hx; subst hy; exact ⟨rfl, rfl⟩

theorem deref_preserves_count {T : Type} [Inhabited T] :
    ∀ (x x' : StreamIterator T) (v : T),
      StreamIterator.deref x = Except.ok (v, x') → x'.countOf = x.countOf := by
  intro x x' v h
  cases x with
  | input st =>
    cases hh : hardCommit st with
    | error e => rw [StreamIterator.deref, hh] at h; simp [Except.map] at h
    | ok p =>
      rw [StreamIterator.deref, hh] at h
      simp only [Except.map, Except.ok.injEq, Prod.mk.injEq] at h
      obtain ⟨-, hx⟩ := h
      subst hx
      obtain ⟨hb, -⟩ := hardCommit_ok (show hardCommit st = Except.ok (p.1, p.2) from hh)
      show some p.2.count = some st.count
      rw [hb, softCommit_count]
  | sentinelStop s => exact Except.noConfusion h
  | countStop c => exact Except.noConfusion h
  | eofStop e => exact Except.noConfusion h

/-- C6: the claim states that `producedCount` is incremented only after
the pending value for the current position was successfully materialized.
This is false for `StreamIterator::operator++` (src/input/input.hpp): on a
fresh reader over an exhausted source the tolerant read fails to produce a
value (the extraction yields nothing and sets failbit), yet the count is
still incremented from 0 to 1. -/
theorem c6_counterexample :
    StreamIterator.inc (scan 0 ({ toks := [], failbit := false, eofbit := false } : Istream Nat)) =
      Except.ok (StreamIterator.input
        { inId := 0, inStrm := { toks := [], failbit := true, eofbit := true },
          count := 1, valid := false, value := 0 }) ∧
    ({ toks := [], failbit := false, eofbit := false } : Istream Nat).read.2 = none :=
  ⟨rfl, rfl⟩

/-- C6 (amended): `producedCount` changes only through `operator++`, by
exactly 1 per call; `IstreamIterator::operator++` increments only after a
successful hard materialization, while `StreamIterator::operator++`
increments even when the tolerant read fails to materialize a value.  No
other operation — `softCommit`, the `Equivalent` comparison, or
`operator*` — changes the count of any reader. -/
theorem c6_amended {T : Type} [Inhabited T] [DecidableEq T] :
    (∀ st : InputState T, StreamIterator.inc (StreamIterator.input st) =
        Except.ok (.input { softCommit st with count := st.count + 1, valid := false })) ∧
    (∀ st : InputState T, IstreamIterator.inc (StreamIterator.input st) =
        (if (softCommit st).inStrm.failbit then Except.error StreamError.failure
         else Except.ok (.input { softCommit st with count := st.count + 1, valid := false }))) ∧
    (∀ st : InputState T, (softCommit st).count = st.count) ∧
    (∀ (x y x' y' : StreamIterator T) (b : Bool),
        Equivalent x y = Except.ok (b, x', y') →
        x'.countOf = x.countOf ∧ y'.countOf = y.countOf) ∧
    (∀ (x x' : StreamIterator T) (v : T),
        StreamIterator.deref x = Except.ok (v, x') → x'.countOf = x.countOf) :=
  ⟨inc_soft_eq, inc_hard_eq, softCommit_count,
   equivalent_preserves_counts, deref_preserves_count⟩

/-- C6 witness: an eof-comparison that reads a token from the source
leaves the reader's produced-count unchanged. -/
theorem c6_amended_witness :
    StreamIterator.countOf (StreamIterator.input
        { inId := 0, inStrm := { toks := [], failbit := false, eofbit := false },
          count := 5, valid := true, value := (3 : Nat) }) =
      StreamIterator.countOf (StreamIterator.input
        { inId := 0, inStrm := { toks := [some 3], failbit := false, eofbit := false },
          count := 5, valid := false, value := (0 : Nat) }) ∧
    StreamIterator.countOf (untilEof Nat) = StreamIterator.countOf (untilEof Nat) :=
  c6_amended.2.2.2.1
    (StreamIterator.input
      { inId := 0, inStrm := { toks := [some 3], failbit := false, eofbit := false },
        count := 5, valid := false, value := 0 })
    (untilEof Nat)
    (StreamIterator.input
      { inId := 0, inStrm := { toks := [], failbit := false, eofbit := false },
        count := 5, valid := true, value := 3 })
    (untilEof Nat) false rfl

/-- C7: comparing any two distinct stopping-condition variants is false,
regardless of the values they carry. -/
theorem c7_distinct_stop_variants {T : Type} [Inhabited T] [DecidableEq T]
    (n : Nat) (v : T) :
    eqBool (untilEof T) (untilCount n) = Except.ok false ∧
    eqBool (untilCount n) (untilEof T) = Except.ok false ∧
    eqBool (untilEof T) (untilSentinel v) = Except.ok false ∧
    eqBool (untilSentinel v) (untilEof T) = Except.ok false ∧
    eqBool (untilCount n) (untilSentinel v) = Except.ok false ∧
    eqBool (untilSentinel v) (untilCount n) = Except.ok false :=
  ⟨rfl, rfl, rfl, rfl, rfl, rfl⟩

/-- C8: a successful `operator*` leaves the reader in a state (value
cached, source untouched) from which a second `operator*` without an
intervening advance returns the identical value and the identical state:
the read is memoized and the source is read at most once per position. -/
theorem c8_memoized {T : Type} [Inhabited T] (st : InputState T) (v : T)
    (x' : StreamIterator T)
    (h : StreamIterator.deref (StreamIterator.input st) = Except.ok (v, x')) :
    StreamIterator.deref x' = Except.ok (v, x') := by
  cases hh : hardCommit st with
  | error e => rw [StreamIterator.deref, hh] at h; simp [Except.map] at h
  | ok p =>
    rw [StreamIterator.deref, hh] at h
    cases p with
    | mk a b =>
      simp only [Except.map, Except.ok.injEq, Prod.mk.injEq] at h
      obtain ⟨hv, hx⟩ := h
      obtain ⟨hb, ha⟩ := hardCommit_ok hh
      have hfb := hardCommit_ok_failbit hh
      subst hx; subst hv; subst hb; subst ha
      show (hardCommit (softCommit st)).map _ = _
      rw [hardCommit_eq, softCommit_idem, hfb]
      simp [Except.map]

/-- C8 witness: after one successful read of the token 5, a second
dereference returns the same value and does not consume anything. -/
theorem c8_memoized_witness :
    StreamIterator.deref (StreamIterator.input
        { inId := 0, inStrm := { toks := [], failbit := false, eofbit := false },
          count := 0, valid := true, value := (5 : Nat) }) =
      Except.ok (5, StreamIterator.input
        { inId := 0, inStrm := { toks := [], failbit := false, eofbit := false },
          count := 0, valid := true, value := 5 }) :=
  c8_memoized
    { inId := 0, inStrm := { toks := [some 5], failbit := false, eofbit := false },
      count := 0, valid := false, value := 0 } 5 _ rfl

/-- C9: invoking `operator*` or either variant's `operator++` on a cursor
holding a stopping-condition variant fails with the invalid-state error
(`std::bad_variant_access` from `std::get<InputState>`). -/
theorem c9_invalid_state {T : Type} [Inhabited T] (n : Nat) (v : T) :
    StreamIterator.deref (untilEof T) = Except.error StreamError.badVariantAccess ∧
    StreamIterator.deref (untilCount n : StreamIterator T) =
      Except.error StreamError.badVariantAccess ∧
    StreamIterator.deref (untilSentinel v) = Except.error StreamError.badVariantAccess ∧
    StreamIterator.inc (untilEof T) = Except.error StreamError.badVariantAccess ∧
    StreamIterator.inc (untilCount n : StreamIterator T) =
      Except.error StreamError.badVariantAccess ∧
    StreamIterator.inc (untilSentinel v) = Except.error StreamError.badVariantAccess ∧
    IstreamIterator.inc (untilEof T) = Except.error StreamError.badVariantAccess ∧
    IstreamIterator.inc (untilCount n : StreamIterator T) =
      Except.error StreamError.badVariantAccess ∧
    IstreamIterator.inc (untilSentinel v) = Except.error StreamError.badVariantAccess :=
  ⟨rfl, rfl, rfl, rfl, rfl, rfl, rfl, rfl, rfl⟩

/-- C10: the public `Eof` type's `operator==` and `operator!=` both return
true (so `!=` is not the negation of `==` on `Eof`), whereas the
cursor-level `operator!=` is exactly the negation of the cursor-level
`operator==`; in particular two `untilEof` cursors compare equal and not
unequal. -/
theorem c10_eof_bne {T : Type} [Inhabited T] [DecidableEq T] :
    Eof.beq ⟨⟩ ⟨⟩ = true ∧
    Eof.bne ⟨⟩ ⟨⟩ = true ∧
    ¬ Eof.bne ⟨⟩ ⟨⟩ = (!Eof.beq ⟨⟩ ⟨⟩) ∧
    eqBool (untilEof T) (untilEof T) = Except.ok true ∧
    neBool (untilEof T) (untilEof T) = Except.ok false ∧
    (∀ (x y : StreamIterator T) (b : Bool),
        eqBool x y = Except.ok b → neBool x y = Except.ok (!b)) := by
  refine ⟨rfl, rfl, by decide, rfl, rfl, ?_⟩
  intro x y b h
  simp only [eqBool] at h
  cases he : Equivalent x y with
  | error e => rw [he] at h; simp [Except.map] at h
  | ok r =>
    rw [he] at h
    simp only [Except.map, Except.ok.injEq] at h
    subst h
    simp [neBool, he, Except.map]

/-- C10 witness: the cursor-level `operator!=` on two equal `untilCount`
cursors is the negation of their `operator==`. -/
theorem c10_eof_bne_witness :
    neBool (untilCount 2 : StreamIterator Nat) (untilCount 2) = Except.ok false :=
  c10_eof_bne.2.2.2.2.2 _ _ true rfl

end cgf
